import Mathlib

/-!
Shallow embedding of `Telegram/SourceFiles/boxes/filters/edit_filter_links.cpp`
(chat-filter invite-link boxes and list controllers) and proofs of the
specification's claims about it.

Conventions of the embedding:
* `QString` values are Lean `String`s; translated-text lookups (`tr::lng_...`)
  are modelled as the distinct string constants named after the language keys.
* Machine 64-bit arithmetic (the xxHash row identity) is `Nat` arithmetic
  taken `% 2^64` wherever the C++ would overflow.
* Peers are a structure of an id and a kind; the kind covers exactly the
  shapes `asUser` / `asChat` / `asChannel` distinguish, plus `other` for any
  peer kind outside those three (which the C++ handles with `Unexpected`,
  a fatal error, modelled as `Except.error`).
* UI side effects (toasts, list-refresh notifications, issued remote
  requests) are recorded as data in the returned state.
-/

/-- Identifier of a peer (`PeerData`), `peer->id.value` in the C++. -/
abbrev PeerId := Nat

/-- The shape of a peer as distinguished by `asUser` / `asChat` / `asChannel`:
a user carries `isBot()`, a basic group carries `canHaveInviteLink()`, a
channel carries `canHaveInviteLink()` and `isMegagroup()`; `other` stands for
any remaining peer kind. -/
inductive PeerKind where
  | user (isBot : Bool)
  | chat (canHaveInviteLink : Bool)
  | channel (canHaveInviteLink : Bool) (isMegagroup : Bool)
  | other
deriving DecidableEq, Repr

/-- A peer (`PeerData`): an id together with its kind. -/
structure Peer where
  pid : PeerId
  kind : PeerKind
deriving DecidableEq, Repr

/-- A `History`: the conversation entity of one peer (`history->peer`). -/
structure History where
  peer : Peer
deriving DecidableEq, Repr

/-- The `Errors` pair returned by `ErrorForSharing`: a short status line and
a toast text. -/
structure Errors where
  status : String
  toast : String
deriving DecidableEq, Repr

/-- Language key `lng_filters_link_bot_status`. -/
def lng_filters_link_bot_status : String := "lng_filters_link_bot_status"

/-- Language key `lng_filters_link_bot_error`. -/
def lng_filters_link_bot_error : String := "lng_filters_link_bot_error"

/-- Language key `lng_filters_link_private_status`. -/
def lng_filters_link_private_status : String := "lng_filters_link_private_status"

/-- Language key `lng_filters_link_private_error`. -/
def lng_filters_link_private_error : String := "lng_filters_link_private_error"

/-- Language key `lng_filters_link_noadmin_status`. -/
def lng_filters_link_noadmin_status : String := "lng_filters_link_noadmin_status"

/-- Language key `lng_filters_link_noadmin_group_error`. -/
def lng_filters_link_noadmin_group_error : String :=
  "lng_filters_link_noadmin_group_error"

/-- Language key `lng_filters_link_noadmin_channel_error`. -/
def lng_filters_link_noadmin_channel_error : String :=
  "lng_filters_link_noadmin_channel_error"

/-- Message of the `Unexpected("Peer type in ErrorForSharing.")` fatal branch. -/
def unexpectedPeerTypeMsg : String := "Peer type in ErrorForSharing."

/-- Embedding of `ErrorForSharing(not_null<History*>)`: decides whether a
chat may back a filter invite link, returning `some` denial (status, toast)
or `none`; the `Unexpected` fatal branch for any other peer kind is the
`Except.error` case. -/
def ErrorForSharing (history : History) : Except String (Option Errors) :=
  match history.peer.kind with
  | .user isBot =>
      if isBot then
        .ok (some ⟨lng_filters_link_bot_status, lng_filters_link_bot_error⟩)
      else
        .ok (some ⟨lng_filters_link_private_status,
          lng_filters_link_private_error⟩)
  | .chat canHaveInviteLink =>
      if !canHaveInviteLink then
        .ok (some ⟨lng_filters_link_noadmin_status,
          lng_filters_link_noadmin_group_error⟩)
      else
        .ok none
  | .channel canHaveInviteLink isMegagroup =>
      if !canHaveInviteLink then
        .ok (some ⟨lng_filters_link_noadmin_status,
          if isMegagroup then lng_filters_link_noadmin_group_error
          else lng_filters_link_noadmin_channel_error⟩)
      else
        .ok none
  | .other => .error unexpectedPeerTypeMsg

/-- C3: `ErrorForSharing` case table — bots get the bot denial, non-bot users
the private-chat denial, groups and megagroups without invite rights the
no-admin denial with group phrasing, broadcast channels without invite rights
the no-admin denial with channel phrasing, any group or channel with invite
rights no denial, and every other peer kind is the fatal `Unexpected` branch. -/
theorem errorForSharing_cases (h : History) :
    (h.peer.kind = .user true →
      ErrorForSharing h =
        .ok (some ⟨lng_filters_link_bot_status, lng_filters_link_bot_error⟩))
    ∧ (h.peer.kind = .user false →
      ErrorForSharing h =
        .ok (some ⟨lng_filters_link_private_status,
          lng_filters_link_private_error⟩))
    ∧ (h.peer.kind = .chat false →
      ErrorForSharing h =
        .ok (some ⟨lng_filters_link_noadmin_status,
          lng_filters_link_noadmin_group_error⟩))
    ∧ (h.peer.kind = .channel false true →
      ErrorForSharing h =
        .ok (some ⟨lng_filters_link_noadmin_status,
          lng_filters_link_noadmin_group_error⟩))
    ∧ (h.peer.kind = .channel false false →
      ErrorForSharing h =
        .ok (some ⟨lng_filters_link_noadmin_status,
          lng_filters_link_noadmin_channel_error⟩))
    ∧ (∀ mg, h.peer.kind = .chat true ∨ h.peer.kind = .channel true mg →
      ErrorForSharing h = .ok none)
    ∧ (h.peer.kind = .other →
      ErrorForSharing h = .error unexpectedPeerTypeMsg) := by
  refine ⟨?_, ?_, ?_, ?_, ?_, ?_, ?_⟩ <;>
    intro hk <;> first
      | (simp [ErrorForSharing, hk])
      | (rintro (hk | hk) <;> simp [ErrorForSharing, hk])

/-- Witness for `errorForSharing_cases` at concrete peers of each kind. -/
theorem errorForSharing_cases_witness :
    ErrorForSharing ⟨⟨1, .user true⟩⟩ =
      .ok (some ⟨lng_filters_link_bot_status, lng_filters_link_bot_error⟩)
    ∧ ErrorForSharing ⟨⟨2, .channel false false⟩⟩ =
      .ok (some ⟨lng_filters_link_noadmin_status,
        lng_filters_link_noadmin_channel_error⟩)
    ∧ ErrorForSharing ⟨⟨3, .channel true true⟩⟩ = .ok none
    ∧ ErrorForSharing ⟨⟨4, .other⟩⟩ = .error unexpectedPeerTypeMsg :=
  ⟨(errorForSharing_cases ⟨⟨1, .user true⟩⟩).1 rfl,
   (errorForSharing_cases ⟨⟨2, .channel false false⟩⟩).2.2.2.2.1 rfl,
   (errorForSharing_cases ⟨⟨3, .channel true true⟩⟩).2.2.2.2.2.1 true
     (Or.inr rfl),
   (errorForSharing_cases ⟨⟨4, .other⟩⟩).2.2.2.2.2.2 rfl⟩

/-- One invite link (`Data::ChatFilterLink`): url, display title, owning
filter id, and the ordered chats the link reaches. -/
structure InviteLinkData where
  url : String
  title : String
  id : Nat
  chats : List History
deriving DecidableEq, Repr

namespace XXH

/-- Modulus of 64-bit machine arithmetic. -/
def mod64 : Nat := 2 ^ 64

/-- xxHash64 first prime constant. -/
def prime1 : Nat := 11400714785074694791

/-- xxHash64 second prime constant. -/
def prime2 : Nat := 14029467366897019727

/-- xxHash64 third prime constant. -/
def prime3 : Nat := 1609587929392839161

/-- xxHash64 fourth prime constant. -/
def prime4 : Nat := 9650029242287828579

/-- xxHash64 fifth prime constant. -/
def prime5 : Nat := 2870177450012600261

/-- 64-bit wrapping addition. -/
def add64 (a b : Nat) : Nat := (a + b) % mod64

/-- 64-bit wrapping subtraction. -/
def sub64 (a b : Nat) : Nat := (a % mod64 + (mod64 - b % mod64)) % mod64

/-- 64-bit wrapping multiplication. -/
def mul64 (a b : Nat) : Nat := (a * b) % mod64

/-- 64-bit rotate left by `r` (for `0 < r < 64` and `x < 2^64`). -/
def rotl64 (x r : Nat) : Nat := ((x * 2 ^ r) % mod64) ||| (x / 2 ^ (64 - r))

/-- 64-bit logical shift right. -/
def shr64 (x r : Nat) : Nat := x / 2 ^ r

/-- Little-endian read of a byte list as one number. -/
def readLE : List Nat → Nat
  | [] => 0
  | b :: t => b % 256 + 256 * readLE t

/-- The xxHash64 per-lane round. -/
def round (acc lane : Nat) : Nat :=
  mul64 (rotl64 (add64 acc (mul64 lane prime2)) 31) prime1

/-- The xxHash64 accumulator merge step. -/
def mergeRound (acc v : Nat) : Nat :=
  add64 (mul64 (acc ^^^ round 0 v) prime1) prime4

/-- Consume 32-byte stripes (the `while (p + 32 <= end)` loop), returning the
four lane accumulators and the remaining bytes. -/
def stripes : List Nat → Nat × Nat × Nat × Nat →
    (Nat × Nat × Nat × Nat) × List Nat
  | a0 :: a1 :: a2 :: a3 :: a4 :: a5 :: a6 :: a7 ::
    b0 :: b1 :: b2 :: b3 :: b4 :: b5 :: b6 :: b7 ::
    c0 :: c1 :: c2 :: c3 :: c4 :: c5 :: c6 :: c7 ::
    d0 :: d1 :: d2 :: d3 :: d4 :: d5 :: d6 :: d7 :: t, v =>
    stripes t
      (round v.1 (readLE [a0, a1, a2, a3, a4, a5, a6, a7]),
       round v.2.1 (readLE [b0, b1, b2, b3, b4, b5, b6, b7]),
       round v.2.2.1 (readLE [c0, c1, c2, c3, c4, c5, c6, c7]),
       round v.2.2.2 (readLE [d0, d1, d2, d3, d4, d5, d6, d7]))
  | bs, v => (v, bs)

/-- Consume remaining 8-byte lanes (the `while (p + 8 <= end)` loop). -/
def tail8 : Nat → List Nat → Nat × List Nat
  | acc, b0 :: b1 :: b2 :: b3 :: b4 :: b5 :: b6 :: b7 :: t =>
    tail8
      (add64
        (mul64
          (rotl64
            (acc ^^^ round 0 (readLE [b0, b1, b2, b3, b4, b5, b6, b7])) 27)
          prime1)
        prime4)
      t
  | acc, bs => (acc, bs)

/-- Consume remaining 4-byte lanes (the `if (p + 4 <= end)` step). -/
def tail4 : Nat → List Nat → Nat × List Nat
  | acc, b0 :: b1 :: b2 :: b3 :: t =>
    tail4
      (add64
        (mul64 (rotl64 (acc ^^^ mul64 (readLE [b0, b1, b2, b3]) prime1) 23)
          prime2)
        prime3)
      t
  | acc, bs => (acc, bs)

/-- Consume the remaining single bytes. -/
def tail1 (acc : Nat) : List Nat → Nat
  | [] => acc
  | b :: t =>
      tail1 (mul64 (rotl64 (acc ^^^ mul64 (b % 256) prime5) 11) prime1) t

/-- The xxHash64 final avalanche. -/
def avalanche (acc : Nat) : Nat :=
  let a1 := mul64 (acc ^^^ shr64 acc 33) prime2
  let a2 := mul64 (a1 ^^^ shr64 a1 29) prime3
  a2 ^^^ shr64 a2 32

/-- xxHash64 of a byte sequence with a seed (`XXH64` of the xxhash library
the C++ links against). -/
def xxh64 (bytes : List Nat) (seed : Nat) : Nat :=
  let len := bytes.length
  let s := seed % mod64
  let (acc, rest) :=
    if 32 ≤ len then
      let (v, rest) := stripes bytes
        (add64 (add64 s prime1) prime2, add64 s prime2, s, sub64 s prime1)
      let acc0 := add64 (add64 (add64 (rotl64 v.1 1) (rotl64 v.2.1 7))
        (rotl64 v.2.2.1 12)) (rotl64 v.2.2.2 18)
      (mergeRound (mergeRound (mergeRound (mergeRound acc0 v.1) v.2.1)
        v.2.2.1) v.2.2.2, rest)
    else (add64 s prime5, bytes)
  let acc := add64 acc len
  let (acc, rest) := tail8 acc rest
  let (acc, rest) := tail4 acc rest
  avalanche (tail1 acc rest)

end XXH

/-- UTF-16 code units of a string, in order (the `ushort` sequence a
`QString` stores). -/
def utf16Units (s : String) : List Nat :=
  (s.data.map (fun c =>
    let n := c.toNat
    if n < 0x10000 then [n]
    else [0xD800 + (n - 0x10000) / 0x400, 0xDC00 + (n - 0x10000) % 0x400])).flatten

/-- The bytes of a string's UTF-16 code units, little-endian — the memory
`XXH64(link.data(), link.size() * sizeof(ushort), 0)` reads. -/
def utf16LEBytes (s : String) : List Nat :=
  ((utf16Units s).map (fun u => [u % 256, u / 256 % 256])).flatten

/-- Embedding of `ComputeRowId(const QString&)`: xxHash64 with seed 0 over
the UTF-16 code-unit bytes of the link url. -/
def ComputeRowId (link : String) : Nat := XXH.xxh64 (utf16LEBytes link) 0

/-- Embedding of `ComputeRowId(const InviteLinkData&)`. -/
def ComputeRowIdData (data : InviteLinkData) : Nat := ComputeRowId data.url

/-- The icon color enum; `Count` is only a size marker in the C++ and the
single real member is `Permanent`. -/
inductive Color where
  | Permanent
deriving DecidableEq, Repr

/-- Embedding of `ComputeColor`: always `Permanent`. -/
def ComputeColor (_link : InviteLinkData) : Color := Color.Permanent

/-- Embedding of `ComputeStatus`: the `lng_filters_chats_count` text with the
link's chat count. -/
def ComputeStatus (link : InviteLinkData) : String :=
  "lng_filters_chats_count:" ++ toString link.chats.length

/-- Embedding of `Row::generateName`: the title when non-empty, otherwise the
url with the `https://`, `t.me/+` and `t.me/joinchat/` fragments removed. -/
def generateName (data : InviteLinkData) : String :=
  if data.title ≠ "" then data.title
  else
    ((data.url.replace "https://" "").replace "t.me/+" "").replace
      "t.me/joinchat/" ""

/-- A list row of `LinksController` (class `Row`): the `PeerListRow` identity
fixed at construction, plus the display fields `_data`, `_status`, `_color`
and the name shown for the row. -/
structure Row where
  rowId : Nat
  data : InviteLinkData
  status : String
  color : Color
  name : String
deriving DecidableEq, Repr

/-- Embedding of the `Row` constructor: identity `ComputeRowId(data)`, plus
the display fields computed from `data`. -/
def Row.ofData (data : InviteLinkData) : Row :=
  { rowId := ComputeRowIdData data
    data := data
    status := ComputeStatus data
    color := ComputeColor data
    name := generateName data }

/-- Embedding of `Row::update`: replaces `_data`, `_color`, the custom status
and the refreshed name; the `PeerListRow` identity is not touched. -/
def Row.update (row : Row) (data : InviteLinkData) : Row :=
  { row with
    data := data
    color := ComputeColor data
    status := ComputeStatus data
    name := generateName data }

/-- C2: `ComputeRowId` is a pure function of the url's UTF-16 code-unit
sequence — equal code-unit sequences give equal identities, equal urls give
equal identities, two `InviteLinkData` with the same url yield `Row`s with
the same identity whatever their other fields, and the hash is
order-sensitive on a concrete pair of urls. -/
theorem computeRowId_deterministic :
    (∀ s t : String, utf16Units s = utf16Units t →
      ComputeRowId s = ComputeRowId t)
    ∧ (∀ d1 d2 : InviteLinkData, d1.url = d2.url →
      ComputeRowIdData d1 = ComputeRowIdData d2)
    ∧ (∀ d1 d2 : InviteLinkData, d1.url = d2.url →
      (Row.ofData d1).rowId = (Row.ofData d2).rowId)
    ∧ ComputeRowId "ab" ≠ ComputeRowId "ba" := by
  refine ⟨?_, ?_, ?_, by decide⟩
  · intro s t hst
    simp [ComputeRowId, utf16LEBytes, hst]
  · intro d1 d2 hurl
    simp [ComputeRowIdData, hurl]
  · intro d1 d2 hurl
    simp [Row.ofData, ComputeRowIdData, hurl]

/-- Witness for `computeRowId_deterministic` at two concrete links sharing a
url but differing in every other field. -/
theorem computeRowId_deterministic_witness :
    ComputeRowIdData ⟨"https://t.me/+abc", "one", 1, []⟩
      = ComputeRowIdData ⟨"https://t.me/+abc", "two", 2, [⟨⟨9, .other⟩⟩]⟩
    ∧ (Row.ofData ⟨"https://t.me/+abc", "one", 1, []⟩).rowId
      = (Row.ofData ⟨"https://t.me/+abc", "two", 2, [⟨⟨9, .other⟩⟩]⟩).rowId :=
  ⟨computeRowId_deterministic.2.1 _ _ rfl,
   computeRowId_deterministic.2.2.1 _ _ rfl⟩

/-- C9: `Row.update` replaces exactly the display fields — stored data, icon
color, status text and name are recomputed from the new data — while the
identity after any update still equals the identity computed at construction
from the original url, for every row and every new data, including data whose
url differs. -/
theorem row_update_frame (row : Row) (d d' : InviteLinkData) :
    ((row.update d').rowId = row.rowId
      ∧ (row.update d').data = d'
      ∧ (row.update d').color = ComputeColor d'
      ∧ (row.update d').status = ComputeStatus d'
      ∧ (row.update d').name = generateName d')
    ∧ (((Row.ofData d).update d').rowId = ComputeRowId d.url
      ∧ ((Row.ofData d).update d').rowId = (Row.ofData d).rowId) := by
  refine ⟨⟨rfl, rfl, rfl, rfl, rfl⟩, ⟨rfl, rfl⟩⟩

/-- Displayed-list state of `LinksController`: the ordered rows the delegate
holds, and a counter of `peerListRefreshRows` notifications. -/
structure LinksState where
  rows : List Row
  refreshCount : Nat
deriving DecidableEq, Repr

/-- The row reconciliation inside `LinksController::rebuild`: walking the
snapshot index by index, a row already displayed at that index is updated in
place, an index beyond the displayed count appends a fresh row, and displayed
rows beyond the snapshot's length are removed from the tail. -/
def reconcile : List Row → List InviteLinkData → List Row
  | _, [] => []
  | [], d :: ds => Row.ofData d :: reconcile [] ds
  | r :: rs, d :: ds => r.update d :: reconcile rs ds

/-- Embedding of `LinksController::rebuild`: reconcile the displayed rows
with the snapshot, then trigger a `peerListRefreshRows` notification. -/
def rebuild (st : LinksState) (snap : List InviteLinkData) : LinksState :=
  { rows := reconcile st.rows snap, refreshCount := st.refreshCount + 1 }

theorem reconcile_get (old : List Row) (snap : List InviteLinkData) (i : Nat) :
    (reconcile old snap)[i]? =
      (snap[i]?).map (fun d =>
        match old[i]? with
        | some r => r.update d
        | none => Row.ofData d) := by
  induction snap generalizing old i with
  | nil => cases old <;> simp [reconcile]
  | cons d ds ih =>
    cases old with
    | nil =>
      cases i with
      | zero => simp [reconcile]
      | succ n => simpa [reconcile] using ih [] n
    | cons r rs =>
      cases i with
      | zero => simp [reconcile]
      | succ n => simpa [reconcile] using ih rs n

theorem reconcile_length (old : List Row) (snap : List InviteLinkData) :
    (reconcile old snap).length = snap.length := by
  induction snap generalizing old with
  | nil => cases old <;> simp [reconcile]
  | cons d ds ih => cases old <;> simp [reconcile, ih]

/-- C1: after `rebuild(snapshot)` the displayed list has exactly the
snapshot's length; each index displayed before and present in the snapshot
holds the old row updated in place with the snapshot entry at that index;
each snapshot index beyond the old displayed count holds a freshly appended
row; no row remains at any index beyond the snapshot's length; and a refresh
notification is triggered. -/
theorem rebuild_reconciles (st : LinksState) (snap : List InviteLinkData) :
    ((rebuild st snap).rows.length = snap.length)
    ∧ (∀ (i : Nat) (r : Row) (d : InviteLinkData),
        st.rows[i]? = some r → snap[i]? = some d →
        (rebuild st snap).rows[i]? = some (r.update d))
    ∧ (∀ (i : Nat) (d : InviteLinkData),
        st.rows.length ≤ i → snap[i]? = some d →
        (rebuild st snap).rows[i]? = some (Row.ofData d))
    ∧ (∀ i, snap.length ≤ i → (rebuild st snap).rows[i]? = none)
    ∧ (rebuild st snap).refreshCount = st.refreshCount + 1 := by
  refine ⟨reconcile_length st.rows snap, ?_, ?_, ?_, rfl⟩
  · intro i r d hr hd
    simp [rebuild, reconcile_get, hr, hd]
  · intro i d hle hd
    have hnone : st.rows[i]? = none := by
      simp [List.getElem?_eq_none_iff]
      omega
    simp [rebuild, reconcile_get, hnone, hd]
  · intro i hle
    have hnone : snap[i]? = none := by
      simp [List.getElem?_eq_none_iff]
      omega
    simp [rebuild, reconcile_get, hnone]

/-- Witness for `rebuild_reconciles`: a two-row list against a one-entry
snapshot (update in place, trim the tail) and a one-row list against a
two-entry snapshot (append). -/
theorem rebuild_reconciles_witness :
    (rebuild ⟨[Row.ofData ⟨"a", "", 1, []⟩, Row.ofData ⟨"b", "", 2, []⟩], 0⟩
        [⟨"c", "", 3, []⟩]).rows[0]?
      = some ((Row.ofData ⟨"a", "", 1, []⟩).update ⟨"c", "", 3, []⟩)
    ∧ (rebuild ⟨[Row.ofData ⟨"a", "", 1, []⟩], 0⟩
        [⟨"c", "", 3, []⟩, ⟨"d", "", 4, []⟩]).rows[1]?
      = some (Row.ofData ⟨"d", "", 4, []⟩)
    ∧ (rebuild ⟨[Row.ofData ⟨"a", "", 1, []⟩, Row.ofData ⟨"b", "", 2, []⟩], 0⟩
        [⟨"c", "", 3, []⟩]).rows[1]? = none :=
  ⟨(rebuild_reconciles _ _).2.1 0 _ _ rfl rfl,
   (rebuild_reconciles _ _).2.2.1 1 _ (by simp) rfl,
   (rebuild_reconciles _ _).2.2.2.1 1 (by simp)⟩

/-- Mutable state of `LinkController`: the appended peer rows in order, the
set of checked peers, the `_denied` map (peer to toast text, the empty string
standing for the reason-free `_denied.emplace(peer)` entries), the live
`_selected` set, the `_initial` set captured at prepare time, `_hasChanges`,
and the toasts shown so far. -/
structure LinkState where
  rows : List PeerId
  checked : Finset PeerId
  denied : List (PeerId × String)
  selected : Finset PeerId
  initial : Finset PeerId
  hasChanges : Bool
  toasts : List String
deriving DecidableEq

/-- Lookup in the `_denied` flat map. -/
def lookupDenied (denied : List (PeerId × String)) (p : PeerId) :
    Option String :=
  (denied.find? (fun e => e.1 == p)).map Prod.snd

/-- Message of the fatal `Expects(!_data.url.isEmpty() || _data.chats.empty())`
at the head of `LinkController::prepare`. -/
def prepareExpectsMsg : String := "Expects failed: !url.isEmpty || chats.empty"

/-- The second loop of `LinkController::prepare`: walk the filter's chats,
skip peers already listed, append the rest, and record denials — the sharing
error's toast for ineligible chats, an empty reason when the link url is
empty; a fatal `Unexpected` from `ErrorForSharing` aborts. -/
def prepareFilterChats (urlEmpty : Bool) :
    List History → List PeerId → List (PeerId × String) →
    Except String (List PeerId × List (PeerId × String))
  | [], rows, denied => .ok (rows, denied)
  | h :: t, rows, denied =>
    if h.peer.pid ∈ rows then prepareFilterChats urlEmpty t rows denied
    else
      match ErrorForSharing h with
      | .error e => .error e
      | .ok (some err) =>
          prepareFilterChats urlEmpty t (rows ++ [h.peer.pid])
            (denied ++ [(h.peer.pid, err.toast)])
      | .ok none =>
          if urlEmpty then
            prepareFilterChats urlEmpty t (rows ++ [h.peer.pid])
              (denied ++ [(h.peer.pid, "")])
          else prepareFilterChats urlEmpty t (rows ++ [h.peer.pid]) denied

/-- Embedding of `LinkController::prepare`: after the fatal `Expects`, list
the link's chats checked and record them as the initial selection, then list
the filter's remaining chats with their denial entries, and start with the
selection equal to the initial set. -/
def prepare (data : InviteLinkData) (filterChats : List History) :
    Except String LinkState :=
  if !data.url.isEmpty || data.chats.isEmpty then
    match prepareFilterChats data.url.isEmpty filterChats
        (data.chats.map (fun h => h.peer.pid)) [] with
    | .error e => .error e
    | .ok (rows, denied) =>
        .ok { rows := rows
              checked := (data.chats.map (fun h => h.peer.pid)).toFinset
              denied := denied
              selected := (data.chats.map (fun h => h.peer.pid)).toFinset
              initial := (data.chats.map (fun h => h.peer.pid)).toFinset
              hasChanges := false
              toasts := [] }
  else .error prepareExpectsMsg

/-- Embedding of `LinkController::rowClicked`: a denied peer only shows its
reason as a toast when that reason is non-empty; an eligible peer has its
checked state toggled, the selection updated accordingly, and `_hasChanges`
recomputed as inequality of the selection with the initial set. -/
def rowClicked (st : LinkState) (p : PeerId) : LinkState :=
  match lookupDenied st.denied p with
  | some toast =>
      if toast.isEmpty then st
      else { st with toasts := st.toasts ++ [toast] }
  | none =>
      let selected :=
        if p ∈ st.checked then st.selected.erase p else insert p st.selected
      { st with
        checked :=
          if p ∈ st.checked then st.checked.erase p else insert p st.checked
        selected := selected
        hasChanges := decide (st.initial ≠ selected) }

theorem errorForSharing_error_eq (h : History) (e : String)
    (he : ErrorForSharing h = .error e) : e = unexpectedPeerTypeMsg := by
  cases hk : h.peer.kind with
  | user b => cases b <;> simp [ErrorForSharing, hk] at he
  | chat c => cases c <;> simp [ErrorForSharing, hk] at he
  | channel c m => cases c <;> simp [ErrorForSharing, hk] at he
  | other =>
      simp [ErrorForSharing, hk] at he
      exact he.symm

theorem prepareFilterChats_error_eq (urlEmpty : Bool) :
    ∀ (l : List History) (rows : List PeerId) (denied : List (PeerId × String))
      (e : String),
      prepareFilterChats urlEmpty l rows denied = .error e →
      e = unexpectedPeerTypeMsg := by
  cases urlEmpty <;>
    (intro l
     induction l with
     | nil => intro rows denied e he; simp [prepareFilterChats] at he
     | cons h t ih =>
       intro rows denied e he
       rw [prepareFilterChats] at he
       by_cases hmem : h.peer.pid ∈ rows
       · rw [if_pos hmem] at he
         exact ih _ _ _ he
       · rw [if_neg hmem] at he
         rcases herr : ErrorForSharing h with e0 | err
         · rw [herr] at he
           simp at he
           exact he ▸ errorForSharing_error_eq h e0 herr
         · rw [herr] at he
           rcases err with _ | err <;> simp at he <;> exact ih _ _ _ he)

/-- The precondition exactly as the spec's sentence states it: a link whose
chats collection is empty must also have an empty url. -/
def SpecNoChatsNoUrl (data : InviteLinkData) : Prop :=
  data.chats = [] → data.url = ""

/-- C5 counterexample: a link with a non-empty url and no chats violates the
spec's stated precondition, yet `prepare` accepts it without any fatal
error. -/
theorem prepare_spec_precondition_counterexample :
    ¬ SpecNoChatsNoUrl ⟨"https://t.me/+abc", "", 1, []⟩
    ∧ (prepare ⟨"https://t.me/+abc", "", 1, []⟩ []).isOk = true := by
  constructor
  · intro hspec
    have := hspec rfl
    simp at this
  · rfl

/-- C5 amended: the fatal `Expects` at the head of `LinkController::prepare`
fires exactly when the url is empty while the chats collection is non-empty —
a link with chats must have a non-empty url (the converse of the spec's
sentence); nothing else makes it fire, and it is fatal, not recoverable. -/
theorem prepare_expects_iff (data : InviteLinkData)
    (filterChats : List History) :
    prepare data filterChats = .error prepareExpectsMsg
      ↔ (data.url = "" ∧ data.chats ≠ []) := by
  rw [prepare]
  by_cases hcond : (!data.url.isEmpty || data.chats.isEmpty) = true
  · rw [if_pos hcond]
    have hcond' : data.url ≠ "" ∨ data.chats = [] := by
      rcases Bool.or_eq_true_iff.mp hcond with hb | hb
      · exact Or.inl (by
          intro hu
          rw [hu] at hb
          exact (by decide : ¬((!"".isEmpty) = true)) hb)
      · exact Or.inr (List.isEmpty_iff.mp hb)
    constructor
    · intro he
      rcases hres : prepareFilterChats data.url.isEmpty filterChats
          (data.chats.map (fun h => h.peer.pid)) [] with e0 | pr
      · rw [hres] at he
        simp at he
        have h2 := prepareFilterChats_error_eq _ _ _ _ _ hres
        exact absurd (he ▸ h2)
          (by decide : ¬(prepareExpectsMsg = unexpectedPeerTypeMsg))
      · rw [hres] at he
        simp at he
    · intro ⟨hu, hc⟩
      rcases hcond' with hne | hemp
      · exact absurd hu hne
      · exact absurd hemp hc
  · rw [if_neg hcond]
    have hcond' : data.url = "" ∧ data.chats ≠ [] := by
      rw [Bool.or_eq_true_iff] at hcond
      push_neg at hcond
      obtain ⟨h1, h2⟩ := hcond
      refine ⟨?_, ?_⟩
      · have hb : data.url.isEmpty = true := by
          cases hbe : data.url.isEmpty
          · rw [hbe] at h1
            simp at h1
          · rfl
        exact (String.isEmpty_iff _).mp hb
      · intro hnil
        rw [hnil] at h2
        simp at h2
    simp only [hcond', ne_eq, not_false_eq_true, and_true, iff_true]

theorem prepare_ok_initial (data : InviteLinkData) (filterChats : List History)
    (st : LinkState) (hp : prepare data filterChats = .ok st) :
    st.checked = st.initial ∧ st.selected = st.initial
      ∧ st.hasChanges = false := by
  rw [prepare] at hp
  split at hp
  · rcases hres : prepareFilterChats data.url.isEmpty filterChats
        (data.chats.map (fun h => h.peer.pid)) [] with e0 | pr
    · rw [hres] at hp
      simp at hp
    · rw [hres] at hp
      rcases pr with ⟨rows, denied⟩
      simp at hp
      rw [← hp]
      exact ⟨rfl, rfl, rfl⟩
  · simp at hp

theorem rowClicked_invariant (st : LinkState) (p : PeerId)
    (hinv : st.hasChanges = false ↔ st.selected = st.initial) :
    ((rowClicked st p).initial = st.initial)
    ∧ ((rowClicked st p).hasChanges = false
        ↔ (rowClicked st p).selected = st.initial) := by
  rcases hd : lookupDenied st.denied p with _ | toast
  · refine ⟨by simp [rowClicked, hd], ?_⟩
    simp only [rowClicked, hd]
    constructor
    · intro hdec
      simp only [decide_eq_false_iff_not, ne_eq, not_not] at hdec
      exact hdec.symm
    · intro hsel
      simp [decide_eq_false_iff_not, hsel]
  · by_cases ht : toast.isEmpty <;>
      simpa [rowClicked, hd, ht] using hinv

theorem applyClicks_invariant (clicks : List PeerId) :
    ∀ st : LinkState, (st.hasChanges = false ↔ st.selected = st.initial) →
      ((clicks.foldl rowClicked st).initial = st.initial
       ∧ ((clicks.foldl rowClicked st).hasChanges = false
          ↔ (clicks.foldl rowClicked st).selected = st.initial)) := by
  induction clicks with
  | nil => intro st h; exact ⟨rfl, h⟩
  | cons p t ih =>
    intro st h
    obtain ⟨hini, hiff⟩ := rowClicked_invariant st p h
    obtain ⟨hini2, hiff2⟩ := ih (rowClicked st p) (by rw [hini]; exact hiff)
    refine ⟨?_, ?_⟩
    · simp only [List.foldl_cons]
      rw [hini2, hini]
    · simp only [List.foldl_cons]
      rw [hiff2, hini]

theorem rowClicked_toggle_twice (st : LinkState) (p : PeerId)
    (hd : lookupDenied st.denied p = none)
    (hsync : st.checked = st.selected) (hsel : st.selected = st.initial) :
    (rowClicked (rowClicked st p) p).selected = st.selected
    ∧ (rowClicked (rowClicked st p) p).hasChanges = false := by
  by_cases hmem : p ∈ st.checked
  · have hmemsel : p ∈ st.selected := hsync ▸ hmem
    have hmemini : p ∈ st.initial := by rw [← hsel]; exact hmemsel
    constructor
    · simp [rowClicked, hd, hmem, Finset.insert_erase hmemsel]
    · simp [rowClicked, hd, hmem, hsel, Finset.insert_erase hmemini]
  · have hmemsel : p ∉ st.selected := fun hc => hmem (by rw [hsync]; exact hc)
    have hmemini : p ∉ st.initial := fun hc => hmemsel (by rw [hsel]; exact hc)
    constructor
    · simp [rowClicked, hd, hmem, Finset.erase_insert hmemsel]
    · simp [rowClicked, hd, hmem, hsel,
        Finset.erase_eq_of_not_mem hmemini]

/-- C4: starting from a prepared `LinkController` state, after any sequence
of row clicks `_hasChanges` is false exactly when the current selection set
equals the initial selection captured at prepare time; and toggling one
eligible chat off and back on restores the original selection and leaves
`_hasChanges` false. -/
theorem hasChanges_iff_selection_differs (data : InviteLinkData)
    (filterChats : List History) (st : LinkState)
    (hprep : prepare data filterChats = .ok st) (clicks : List PeerId) :
    ((clicks.foldl rowClicked st).hasChanges = false
      ↔ (clicks.foldl rowClicked st).selected = st.initial)
    ∧ (∀ p : PeerId, lookupDenied st.denied p = none →
        (rowClicked (rowClicked st p) p).selected = st.selected
        ∧ (rowClicked (rowClicked st p) p).hasChanges = false) := by
  obtain ⟨hchk, hsel, hhc⟩ := prepare_ok_initial data filterChats st hprep
  have hbase : st.hasChanges = false ↔ st.selected = st.initial :=
    ⟨fun _ => hsel, fun _ => hhc⟩
  refine ⟨(applyClicks_invariant clicks st hbase).2, ?_⟩
  intro p hd
  exact rowClicked_toggle_twice st p hd (hchk.trans hsel.symm) hsel

/-- Witness for `hasChanges_iff_selection_differs`: the spec's scenario — a
link with url `https://t.me/+abc` and one chat, that chat toggled off and
back on, ends with `_hasChanges` false and the original single-chat
selection. -/
theorem hasChanges_iff_selection_differs_witness :
    (([5, 5] : List PeerId).foldl rowClicked
      ⟨[5], {5}, [], {5}, {5}, false, []⟩).hasChanges = false
    ∧ (rowClicked (rowClicked ⟨[5], {5}, [], {5}, {5}, false, []⟩ 5) 5).selected
      = ({5} : Finset PeerId) := by
  have h := hasChanges_iff_selection_differs
    ⟨"https://t.me/+abc", "", 1, [⟨⟨5, .chat true⟩⟩]⟩ []
    ⟨[5], {5}, [], {5}, {5}, false, []⟩ rfl [5, 5]
  exact ⟨h.1.mpr (by decide), (h.2 5 rfl).1⟩

/-- C8 counterexample: preparing a not-yet-created link (empty url) with one
eligible filter chat puts that chat in the denied map with an empty reason;
clicking it then shows no toast at all, contradicting the claim that every
denied chat's click shows its denial reason as a toast. -/
theorem rowClicked_denied_counterexample :
    prepare ⟨"", "", 1, []⟩ [⟨⟨7, .chat true⟩⟩]
      = .ok ⟨[7], ∅, [(7, "")], ∅, ∅, false, []⟩
    ∧ lookupDenied [(7, "")] 7 = some ""
    ∧ ¬((rowClicked ⟨[7], ∅, [(7, "")], ∅, ∅, false, []⟩ 7).toasts
        = ([] : List String) ++ [""]) :=
  ⟨rfl, rfl, by decide⟩

/-- C8 amended: clicking a chat present in the denied map leaves the checked
set, the selection, `_hasChanges`, the initial set, the rows and the denied
map unchanged in every controller state, and shows the denial reason as a
toast exactly when that reason is non-empty (a chat denied with an empty
reason — recorded only because the link does not exist yet — shows
nothing). -/
theorem rowClicked_denied_frame (st : LinkState) (p : PeerId) (reason : String)
    (hd : lookupDenied st.denied p = some reason) :
    (rowClicked st p).checked = st.checked
    ∧ (rowClicked st p).selected = st.selected
    ∧ (rowClicked st p).hasChanges = st.hasChanges
    ∧ (rowClicked st p).initial = st.initial
    ∧ (rowClicked st p).rows = st.rows
    ∧ (rowClicked st p).denied = st.denied
    ∧ (rowClicked st p).toasts =
        (if reason = "" then st.toasts else st.toasts ++ [reason]) := by
  by_cases hr : reason.isEmpty
  · have hre : reason = "" := (String.isEmpty_iff _).mp hr
    simp [rowClicked, hd, hre, show "".isEmpty = true from rfl]
  · have hre : ¬(reason = "") := fun hc => hr (by rw [hc]; rfl)
    simp [rowClicked, hd, Bool.not_eq_true _ ▸ hr, hre]

/-- Witness for `rowClicked_denied_frame` at a concrete denied chat with the
private-chat denial reason: the toast is shown and the selection keeps its
value. -/
theorem rowClicked_denied_frame_witness :
    (rowClicked ⟨[9], ∅, [(9, lng_filters_link_private_error)], ∅, ∅,
        false, []⟩ 9).toasts
      = (if lng_filters_link_private_error = "" then ([] : List String)
          else [] ++ [lng_filters_link_private_error])
    ∧ (rowClicked ⟨[9], ∅, [(9, lng_filters_link_private_error)], ∅, ∅,
        false, []⟩ 9).selected = (∅ : Finset PeerId) := by
  have h := rowClicked_denied_frame
    ⟨[9], ∅, [(9, lng_filters_link_private_error)], ∅, ∅, false, []⟩ 9
    lng_filters_link_private_error rfl
  exact ⟨h.2.2.2.2.2.2, h.2.1⟩

/-- Language key `lng_settings_save`. -/
def lng_settings_save : String := "lng_settings_save"

/-- Language key `lng_cancel`. -/
def lng_cancel : String := "lng_cancel"

/-- Language key `lng_about_done`. -/
def lng_about_done : String := "lng_about_done"

/-- Language key `lng_filters_empty`, the empty-selection notice text shown
by `ShowEmptyLinkError`. -/
def lng_filters_empty : String := "lng_filters_empty"

/-- What a footer button of `ShowLinkBox` does when clicked. -/
inductive BoxAction where
  | saveChosen
  | closeBox
deriving DecidableEq, Repr

/-- Embedding of the `hasChangesValue` subscriber in `ShowLinkBox`: the
buttons installed after `clearButtons()` for a `hasChanges` value — save and
cancel while there are pending changes, a single done button that closes the
box otherwise. -/
def showLinkBoxButtons (hasChanges : Bool) : List (String × BoxAction) :=
  if hasChanges then
    [(lng_settings_save, .saveChosen), (lng_cancel, .closeBox)]
  else
    [(lng_about_done, .closeBox)]

/-- Observable outcome of the save-button click in `ShowLinkBox`. -/
inductive SaveOutcome where
  | emptyLinkErrorShown (toast : String)
  | editLinkChatsIssued (id : Nat) (url : String) (peers : Finset PeerId)
deriving DecidableEq

/-- Embedding of the save-button handler in `ShowLinkBox`: with an empty
selection it shows `ShowEmptyLinkError`'s notice; otherwise it issues
`EditLinkChats(link, chosen)`. -/
def saveClick (link : InviteLinkData) (chosen : Finset PeerId) : SaveOutcome :=
  if chosen = ∅ then .emptyLinkErrorShown lng_filters_empty
  else .editLinkChatsIssued link.id link.url chosen

/-- C6: the save handler never issues the remote `EditLinkChats` call on an
empty selection and shows the empty-selection notice instead; on a non-empty
selection it issues the edit for the link and the chosen chats; and the
footer holds the save/cancel pair exactly when `hasChanges` is true,
otherwise the single close-box done button. -/
theorem showLinkBox_save_spec (link : InviteLinkData)
    (chosen : Finset PeerId) :
    (chosen = ∅ →
      saveClick link chosen = .emptyLinkErrorShown lng_filters_empty
      ∧ ∀ (i : Nat) (u : String) (ps : Finset PeerId),
          saveClick link chosen ≠ .editLinkChatsIssued i u ps)
    ∧ (chosen ≠ ∅ →
      saveClick link chosen = .editLinkChatsIssued link.id link.url chosen
      ∧ ∀ t : String, saveClick link chosen ≠ .emptyLinkErrorShown t)
    ∧ (∀ b : Bool, showLinkBoxButtons b =
        if b then [(lng_settings_save, .saveChosen), (lng_cancel, .closeBox)]
        else [(lng_about_done, .closeBox)])
    ∧ ((lng_about_done, BoxAction.closeBox) ∈ showLinkBoxButtons false
        ∧ ∀ pr ∈ showLinkBoxButtons false, pr.2 = BoxAction.closeBox) := by
  refine ⟨?_, ?_, fun b => rfl, by simp [showLinkBoxButtons], ?_⟩
  case refine_3 =>
    intro pr hpr
    simp [showLinkBoxButtons] at hpr
    simp [hpr]
  · intro hempty
    refine ⟨by simp [saveClick, hempty], ?_⟩
    intro i u ps hc
    rw [saveClick, if_pos hempty] at hc
    cases hc
  · intro hne
    refine ⟨by simp [saveClick, hne], ?_⟩
    intro t hc
    rw [saveClick, if_neg hne] at hc
    cases hc

/-- Witness for `showLinkBox_save_spec`: the empty selection shows the
notice, the selection containing chat 3 issues the edit. -/
theorem showLinkBox_save_spec_witness :
    saveClick ⟨"https://t.me/+abc", "", 1, []⟩ ∅
      = .emptyLinkErrorShown lng_filters_empty
    ∧ saveClick ⟨"https://t.me/+abc", "", 1, []⟩ {3}
      = .editLinkChatsIssued 1 "https://t.me/+abc" {3} :=
  ⟨((showLinkBox_save_spec ⟨"https://t.me/+abc", "", 1, []⟩ ∅).1 rfl).1,
   ((showLinkBox_save_spec ⟨"https://t.me/+abc", "", 1, []⟩ {3}).2.1
      (by decide)).1⟩

/-- Modelled from the spec: the bit index of `Data::ChatFilter::Flag::Community`
inside the 32-bit filter flag word (`data/data_chat_filters.h` is not part of
this excerpt); the spec only requires that `Community` is one dedicated flag
bit, the single flag an exportable filter may carry. -/
def communityFlagBit : Nat := 8

/-- The `Flag::Community` value as a bit mask. -/
def flagCommunity : Nat := 2 ^ communityFlagBit

/-- The 32-bit complement `~Flag::Community`. -/
def notCommunityMask : Nat := 2 ^ 32 - 1 - flagCommunity

/-- A chat filter (`Data::ChatFilter`): its flag word, the always-included
chats, the never-included (excluded) chats, and its title. -/
structure ChatFilter where
  flags : Nat
  always : List History
  never : List History
  title : String
deriving DecidableEq, Repr

/-- Language key `lng_filters_link_cant`, the cannot-export toast. -/
def lng_filters_link_cant : String := "lng_filters_link_cant"

/-- Embedding of `GoodForExportFilterLink`: rejects — returning false after
showing the cannot-export toast — when the filter has any `never` exclusions
or any flag bit outside `Community`; accepts with no toast otherwise. -/
def GoodForExportFilterLink (filter : ChatFilter) : Bool × List String :=
  if !filter.never.isEmpty || filter.flags &&& notCommunityMask != 0 then
    (false, [lng_filters_link_cant])
  else
    (true, [])

theorem notCommunityMask_testBit (i : Nat) :
    notCommunityMask.testBit i
      = (decide (i < 32) && decide (i ≠ communityFlagBit)) := by
  by_cases h32 : i < 32
  · interval_cases i <;> decide
  · have hle : (32 : Nat) ≤ i := Nat.le_of_not_lt h32
    have hlt : notCommunityMask < 2 ^ i :=
      lt_of_lt_of_le (by decide) (Nat.pow_le_pow_right (by omega) hle)
    simp [Nat.testBit_lt_two_pow hlt, h32]

theorem flags_land_mask_ne_zero (flags : Nat) (hw : flags < 2 ^ 32) :
    (flags &&& notCommunityMask ≠ 0)
      ↔ ∃ i, i ≠ communityFlagBit ∧ flags.testBit i = true := by
  constructor
  · intro h
    obtain ⟨i, hi⟩ := Nat.ne_zero_implies_bit_true h
    rw [Nat.testBit_land, notCommunityMask_testBit] at hi
    simp at hi
    exact ⟨i, hi.2.2, hi.1⟩
  · rintro ⟨i, hne, hbit⟩ h0
    have hi32 : i < 32 := by
      by_contra hge
      have hf : flags.testBit i = false :=
        Nat.testBit_lt_two_pow (lt_of_lt_of_le hw
          (Nat.pow_le_pow_right (by omega) (Nat.le_of_not_lt hge)))
      rw [hf] at hbit
      cases hbit
    have htb := congrArg (fun n => n.testBit i) h0
    simp [Nat.testBit_land, notCommunityMask_testBit, hbit, hi32, hne] at htb

/-- C7: under the 32-bit range of the flag word, `GoodForExportFilterLink`
returns false and shows the cannot-export toast exactly when the filter has
a non-empty `never` exclusion set or some flag bit other than `Community`
set, and returns true with no toast exactly otherwise. -/
theorem goodForExportFilterLink_iff (filter : ChatFilter)
    (hw : filter.flags < 2 ^ 32) :
    (GoodForExportFilterLink filter = (false, [lng_filters_link_cant])
      ↔ (filter.never ≠ []
          ∨ ∃ i, i ≠ communityFlagBit ∧ filter.flags.testBit i = true))
    ∧ (GoodForExportFilterLink filter = (true, [])
      ↔ (filter.never = []
          ∧ ∀ i, i ≠ communityFlagBit → filter.flags.testBit i = false)) := by
  have hcond : ((!filter.never.isEmpty
        || (filter.flags &&& notCommunityMask != 0)) = true)
      ↔ (filter.never ≠ [] ∨ filter.flags &&& notCommunityMask ≠ 0) := by
    simp
  by_cases hc : filter.never ≠ [] ∨ filter.flags &&& notCommunityMask ≠ 0
  · have hgood : GoodForExportFilterLink filter
        = (false, [lng_filters_link_cant]) := by
      rw [GoodForExportFilterLink, if_pos (hcond.mpr hc)]
    constructor
    · rw [hgood]
      refine ⟨fun _ => ?_, fun _ => rfl⟩
      rcases hc with h | h
      · exact Or.inl h
      · exact Or.inr ((flags_land_mask_ne_zero _ hw).mp h)
    · rw [hgood]
      constructor
      · intro heq
        simp at heq
      · intro ⟨hnev, hall⟩
        exfalso
        rcases hc with h | h
        · exact h hnev
        · obtain ⟨i, hne, hbit⟩ := (flags_land_mask_ne_zero _ hw).mp h
          rw [hall i hne] at hbit
          cases hbit
  · have hgood : GoodForExportFilterLink filter = (true, []) := by
      rw [GoodForExportFilterLink, if_neg (fun hcc => hc (hcond.mp hcc))]
    have hnev : filter.never = [] := by
      by_contra hn
      exact hc (Or.inl hn)
    have hmask : filter.flags &&& notCommunityMask = 0 := by
      by_contra hm
      exact hc (Or.inr hm)
    constructor
    · rw [hgood]
      constructor
      · intro heq
        simp at heq
      · intro hrhs
        exfalso
        rcases hrhs with h | ⟨i, hne, hbit⟩
        · exact h hnev
        · exact (flags_land_mask_ne_zero _ hw).mpr ⟨i, hne, hbit⟩ hmask
    · rw [hgood]
      refine ⟨fun _ => ⟨hnev, fun i hne => ?_⟩, fun _ => rfl⟩
      cases hb : filter.flags.testBit i
      · rfl
      · exact absurd hmask
          ((flags_land_mask_ne_zero _ hw).mpr ⟨i, hne, hb⟩)

/-- Witness for `goodForExportFilterLink_iff`: flag word 257 (Community plus
bit 0) is rejected with the toast, flag word 256 (Community alone) with no
exclusions is accepted. -/
theorem goodForExportFilterLink_iff_witness :
    GoodForExportFilterLink ⟨257, [], [], ""⟩
      = (false, [lng_filters_link_cant])
    ∧ GoodForExportFilterLink ⟨256, [], [], ""⟩ = (true, []) := by
  constructor
  · exact (goodForExportFilterLink_iff ⟨257, [], [], ""⟩ (by decide)).1.mpr
      (Or.inr ⟨0, by decide, by decide⟩)
  · refine (goodForExportFilterLink_iff ⟨256, [], [], ""⟩ (by decide)).2.mpr
      ⟨rfl, fun i hne => ?_⟩
    rw [show (256 : Nat) = 2 ^ 8 from rfl, Nat.testBit_two_pow]
    exact decide_eq_false (fun h => hne h.symm)

/-- The element-wise walk of `CollectFilterLinkChats`: keep each history that
passes `ErrorForSharing` with no denial, mapped to its peer; a fatal
`Unexpected` inside `ErrorForSharing` aborts (the C++ would terminate). -/
def collectChats : List History → Except String (List Peer)
  | [] => .ok []
  | h :: t =>
    match ErrorForSharing h with
    | .error e => .error e
    | .ok err =>
      match collectChats t with
      | .error e => .error e
      | .ok rest => .ok (if err.isNone then h.peer :: rest else rest)

/-- Embedding of `CollectFilterLinkChats`: filters the filter's
always-included chats by sharing eligibility and returns their peers. -/
def CollectFilterLinkChats (filter : ChatFilter) : Except String (List Peer) :=
  collectChats filter.always

/-- Boolean form of the keep-condition `!ErrorForSharing(history)`: the
sharing check reports no denial. -/
def NoErrorForSharing (h : History) : Bool :=
  match ErrorForSharing h with
  | .ok none => true
  | _ => false

theorem noErrorForSharing_iff (h : History) :
    NoErrorForSharing h = true ↔ ErrorForSharing h = .ok none := by
  rw [NoErrorForSharing]
  rcases he : ErrorForSharing h with e | err
  · simp [he]
  · rcases err with _ | err <;> simp [he]

theorem collectChats_eq (l : List History)
    (hk : ∀ h ∈ l, h.peer.kind ≠ .other) :
    collectChats l =
      .ok ((l.filter NoErrorForSharing).map History.peer) := by
  induction l with
  | nil => rfl
  | cons h t ih =>
    have hho : h.peer.kind ≠ .other := hk h (by simp)
    have ht : ∀ x ∈ t, x.peer.kind ≠ .other := fun x hx => hk x (by simp [hx])
    obtain ⟨e, he⟩ : ∃ e, ErrorForSharing h = .ok e := by
      cases hkind : h.peer.kind with
      | user b => cases b <;> simp [ErrorForSharing, hkind]
      | chat c => cases c <;> simp [ErrorForSharing, hkind]
      | channel c m => cases c <;> simp [ErrorForSharing, hkind]
      | other => exact absurd hkind hho
    rw [collectChats, he, ih ht]
    rcases e with _ | err
    · have hkeep : NoErrorForSharing h = true := (noErrorForSharing_iff h).mpr he
      simp [List.filter_cons, hkeep]
    · have hdrop : NoErrorForSharing h = false := by
        rw [NoErrorForSharing, he]
      simp [List.filter_cons, hdrop]

/-- C10: when every always-included chat of the filter has a peer of a known
kind, `CollectFilterLinkChats` returns exactly the peers of the
always-included chats for which `ErrorForSharing` reports no denial, kept in
the filter's iteration order; ineligible chats are silently dropped. -/
theorem collectFilterLinkChats_spec (filter : ChatFilter)
    (hk : ∀ h ∈ filter.always, h.peer.kind ≠ .other) :
    CollectFilterLinkChats filter =
      .ok ((filter.always.filter NoErrorForSharing).map History.peer) :=
  collectChats_eq filter.always hk

/-- Witness for `collectFilterLinkChats_spec`: a filter whose always list
holds a bot, an eligible group and a rightless broadcast channel keeps
exactly the group's peer. -/
theorem collectFilterLinkChats_spec_witness :
    CollectFilterLinkChats
      ⟨256,
       [⟨⟨1, .user true⟩⟩, ⟨⟨2, .chat true⟩⟩, ⟨⟨3, .channel false false⟩⟩],
       [], ""⟩
      = .ok [⟨2, .chat true⟩]
    ∧ (([⟨⟨1, .user true⟩⟩, ⟨⟨2, .chat true⟩⟩,
        ⟨⟨3, .channel false false⟩⟩] : List History).filter
          NoErrorForSharing).map History.peer
      = [⟨2, .chat true⟩] := by
  have h := collectFilterLinkChats_spec
    ⟨256,
     [⟨⟨1, .user true⟩⟩, ⟨⟨2, .chat true⟩⟩, ⟨⟨3, .channel false false⟩⟩],
     [], ""⟩
    (by intro x hx; fin_cases hx <;> simp)
  refine ⟨?_, by decide⟩
  rw [h]
  exact congrArg Except.ok (by decide)
